import Mathlib

/-!
Verification of the sampling and shading core of a custom render engine
(`blenderengine.PY`).  The definitions below are a shallow embedding of the
Python source: Python floats are modelled by exact arithmetic (`ℚ` for the
Van der Corput generator and pixel colors, `ℝ` for the camera geometry),
Python lists by `List`, and the in-place pixel writes of the render loop by
`List.set`.  A Python `ZeroDivisionError` is modelled by an `Except` error
result.
-/

/-- One iteration of the `while n:` loop of `corput` in the source:

    denom *= base
    n, remainder = divmod(n, base)
    q += remainder / denom

modelled with an explicit fuel argument (the loop has no structural
termination measure for an arbitrary `base`; `corput` supplies fuel `n`,
which suffices whenever `base ≥ 2`, see `corput_terminates`). -/
def corputLoop (base : ℕ) : ℕ → ℕ → ℚ → ℚ → ℚ
  | 0, _, q, _ => q
  | fuel + 1, n, q, denom =>
    if n = 0 then q
    else corputLoop base fuel (n / base) (q + ((n % base : ℕ) : ℚ) / (denom * base)) (denom * base)

/-- `corput(n, base)` from the source: run the digit-reversal loop starting
from `q = 0`, `denom = 1`, then return `q - 0.5`. -/
def corput (n base : ℕ) : ℚ := corputLoop base n n 0 1 - 1/2

/-- The reversed-digit fraction `Σ dₖ / base^(k+1)` of `n`, written as the
natural structural recursion: the least significant digit `n % base`
contributes `(n % base) / base`, and the remaining digits are the digits of
`n / base`, scaled down by a further factor of `base`. -/
def vdcSum (base n : ℕ) : ℚ :=
  if h : 1 < base ∧ 0 < n then
    ((n % base : ℕ) : ℚ) / base + vdcSum base (n / base) / base
  else 0
termination_by n
decreasing_by exact Nat.div_lt_self h.2 h.1

/-- The Van der Corput digit-reversal value as the specification words it:
the sum over the base-`base` digits `dₖ` of `n` (least significant first) of
`dₖ / base^(k+1)`. -/
def vanDerCorputValue (n base : ℕ) : ℚ :=
  (((Nat.digits base n).enum).map (fun p => (p.2 : ℚ) / (base : ℚ) ^ (p.1 + 1))).sum

/-- A 3-component vector (`mathutils.Vector` in the source), over `ℝ`. -/
structure Vec3 where
  x : ℝ
  y : ℝ
  z : ℝ

/-- Squared Euclidean magnitude of a `Vec3`. -/
def Vec3.normSq (v : Vec3) : ℝ := v.x ^ 2 + v.y ^ 2 + v.z ^ 2

/-- Euclidean magnitude (`Vector.length` in mathutils). -/
noncomputable def Vec3.norm (v : Vec3) : ℝ := Real.sqrt v.normSq

/-- `Vector.normalized()` from mathutils: the vector scaled to unit length,
or the zero vector when the magnitude is zero. -/
noncomputable def Vec3.normalized (v : Vec3) : Vec3 :=
  if v.norm = 0 then ⟨0, 0, 0⟩ else ⟨v.x / v.norm, v.y / v.norm, v.z / v.norm⟩

/-- Euler angles (`rotation_euler` of the camera, Blender's default XYZ
order). -/
structure Euler where
  ax : ℝ
  ay : ℝ
  az : ℝ

/-- Rotation about the X axis by angle `a`. -/
noncomputable def rotX (a : ℝ) (v : Vec3) : Vec3 :=
  ⟨v.x, Real.cos a * v.y - Real.sin a * v.z, Real.sin a * v.y + Real.cos a * v.z⟩

/-- Rotation about the Y axis by angle `a`. -/
noncomputable def rotY (a : ℝ) (v : Vec3) : Vec3 :=
  ⟨Real.cos a * v.x + Real.sin a * v.z, v.y, -Real.sin a * v.x + Real.cos a * v.z⟩

/-- Rotation about the Z axis by angle `a`. -/
noncomputable def rotZ (a : ℝ) (v : Vec3) : Vec3 :=
  ⟨Real.cos a * v.x - Real.sin a * v.y, Real.sin a * v.x + Real.cos a * v.y, v.z⟩

/-- `Vector.rotate(euler)` for an XYZ Euler: apply the X rotation, then Y,
then Z. -/
noncomputable def rotateEuler (e : Euler) (v : Vec3) : Vec3 :=
  rotZ e.az (rotY e.ay (rotX e.ax v))

/-- Result of the host's `scene.ray_cast`: `has_hit` is the boolean flag;
the hit location, normal and object id are opaque payload that the core
never inspects. -/
structure HitResult where
  has_hit : Bool
  hit_loc : Vec3
  hit_norm : Vec3
  hit_obj : ℕ

/-- The external scene-query capability: given a ray origin and direction it
produces a `HitResult`.  The host's intersection engine is out of scope, so
a scene is just such a function. -/
abbrev Scene := Vec3 → Vec3 → HitResult

/-- `ray_cast(scene, origin, direction)` from the source: delegate to the
host's intersection engine. -/
def ray_cast (scene : Scene) (origin direction : Vec3) : HitResult :=
  scene origin direction

/-- An RGB color triple (the source's numpy 3-arrays), exact values. -/
structure Color where
  r : ℚ
  g : ℚ
  b : ℚ
deriving DecidableEq

/-- The body of `RT_trace_ray` after the ray cast: start from black and
return it when the ray hit nothing, otherwise return pure red. -/
def traceColor (h : HitResult) : Color :=
  if h.has_hit = false then ⟨0, 0, 0⟩ else ⟨1, 0, 0⟩

/-- `RT_trace_ray(scene, ray_orig, ray_dir)` from the source: cast the ray
into the scene and color the result. -/
def RT_trace_ray (scene : Scene) (ray_orig ray_dir : Vec3) : Color :=
  traceColor (ray_cast scene ray_orig ray_dir)

/-- An RGBA pixel as stored in the frame buffer `rect`. -/
structure Pixel where
  r : ℚ
  g : ℚ
  b : ℚ
  a : ℚ
deriving DecidableEq

/-- `rect[y*size_x + x] = [r, g, b, 1.0]` packs a traced color with a fixed
alpha of `1.0`. -/
def colorToPixel (c : Color) : Pixel := ⟨c.r, c.g, c.b, 1⟩

/-- The composite per-hit shading rule of the pixel loop: trace color plus
the fixed alpha. -/
def shadePixel (h : HitResult) : Pixel := colorToPixel (traceColor h)

/-- Camera data the render loop reads from the host: location,
`rotation_euler`, and the focal ratio `lens / sensor_width`. -/
structure CameraState where
  location : Vec3
  rotation_euler : Euler
  focal_length : ℝ

/-- `screen_x = (x - (width / 2)) / width` from the pixel loop. -/
noncomputable def screenX (width : ℤ) (x : ℕ) : ℝ :=
  ((x : ℝ) - (width : ℝ) / 2) / (width : ℝ)

/-- `screen_y = ((y - (height / 2)) / height) * aspect_ratio` from the pixel
loop, with `aspect_ratio = height / width`. -/
noncomputable def screenY (width height : ℤ) (y : ℕ) : ℝ :=
  (((y : ℝ) - (height : ℝ) / 2) / (height : ℝ)) * ((height : ℝ) / (width : ℝ))

/-- The ray direction built by the loop body:

    ray_dir = Vector((screen_x + corput_x[s], screen_y + corput_y[s], -focal_length))
    ray_dir.rotate(cam_orientation)
    ray_dir = ray_dir.normalized()

as a function of the jittered screen coordinates `sx`, `sy`. -/
noncomputable def rayDirFor (e : Euler) (f sx sy : ℝ) : Vec3 :=
  (rotateEuler e ⟨sx, sy, -f⟩).normalized

/-- `corput_x[s] = corput(s, 2) * dx` with `dx = 1 / width`. -/
noncomputable def corputX (width : ℤ) (s : ℕ) : ℝ :=
  ((corput s 2 : ℚ) : ℝ) * (1 / (width : ℝ))

/-- `corput_y[s] = corput(s, 3) * dy` with
`dy = aspect_ratio / height = (height / width) / height`. -/
noncomputable def corputY (width height : ℤ) (s : ℕ) : ℝ :=
  ((corput s 3 : ℚ) : ℝ) * (((height : ℝ) / (width : ℝ)) / (height : ℝ))

/-- The full ray of one `(pixel, sample)` iteration, for sample offsets
`cx`, `cy`. -/
noncomputable def sampleRay (cam : CameraState) (width height : ℤ) (cx cy : ℝ) (x y : ℕ) : Vec3 :=
  rayDirFor cam.rotation_euler cam.focal_length (screenX width x + cx) (screenY width height y + cy)

/-- The pixel value written for one `(pixel, sample)` iteration:
`color = RT_trace_ray(scene, cam_location, ray_dir)` packed with alpha 1. -/
noncomputable def samplePixel (scene : Scene) (cam : CameraState) (width height : ℤ)
    (cx cy : ℝ) (x y : ℕ) : Pixel :=
  colorToPixel (RT_trace_ray scene cam.location (sampleRay cam width height cx cy x y))

/-- The inner `for x in range(self.size_x)` loop for one row `y`: each
iteration performs one scene query (counted in the first component) and
writes `rect[y*size_x + x]`. -/
noncomputable def renderRow (scene : Scene) (cam : CameraState) (width height : ℤ)
    (cx cy : ℝ) (st : ℕ × List Pixel) (y : ℕ) : ℕ × List Pixel :=
  (List.range width.toNat).foldl
    (fun st x =>
      (st.1 + 1, st.2.set (y * width.toNat + x) (samplePixel scene cam width height cx cy x y)))
    st

/-- One full sample pass `for y in range(self.size_y): for x in ...` of the
render loop. -/
noncomputable def renderPass (scene : Scene) (cam : CameraState) (width height : ℤ)
    (cx cy : ℝ) (st : ℕ × List Pixel) : ℕ × List Pixel :=
  (List.range height.toNat).foldl (fun st y => renderRow scene cam width height cx cy st y) st

/-- Failure modes of `render`.  The source contains no explicit validation;
`zeroDivision` models the Python `ZeroDivisionError` raised while computing
`aspect_ratio = height / width` (when `width == 0`) or
`dy = aspect_ratio / height` (when `height == 0`), both of which happen
before the pixel loop.  `invalidResolution` is the error kind named by the
design document; the code never produces it. -/
inductive RenderError where
  | invalidResolution
  | zeroDivision
deriving DecidableEq

/-- `CustomRenderEngine.render`, extracted from the host: given a scene
query, camera data, the pixel dimensions `width = size_x`,
`height = size_y`, and a sample count, either fail with a division-by-zero
during setup or run the sample/row/column loops over the flat buffer
`rect = [color] * pixel_count` and hand the finished buffer to the result
sink.  The first component counts the scene queries performed. -/
noncomputable def render (scene : Scene) (cam : CameraState) (width height : ℤ)
    (sample_count : ℕ) : ℕ × Except RenderError (List Pixel) :=
  if width = 0 ∨ height = 0 then (0, Except.error RenderError.zeroDivision)
  else
    let st := (List.range sample_count).foldl
      (fun st s => renderPass scene cam width height (corputX width s) (corputY width height s) st)
      (0, List.replicate (width * height).toNat ⟨0, 0, 0, 1⟩)
    (st.1, Except.ok st.2)

/-- A scene in which every ray misses. -/
def emptyScene : Scene := fun _ _ => ⟨false, ⟨0, 0, 0⟩, ⟨0, 0, 0⟩, 0⟩

/-- A camera at the origin with identity orientation and focal ratio 1. -/
noncomputable def camZero : CameraState := ⟨⟨0, 0, 0⟩, ⟨0, 0, 0⟩, 1⟩

/-- A stub scene that reports a hit exactly for one chosen ray direction. -/
noncomputable def stubScene (target : Vec3) : Scene := fun _ d =>
  @ite _ (d = target) (Classical.propDecidable _)
    ⟨true, ⟨0, 0, 0⟩, ⟨0, 0, 0⟩, 1⟩ ⟨false, ⟨0, 0, 0⟩, ⟨0, 0, 0⟩, 0⟩

theorem vdcSum_pos_eq {base n : ℕ} (hb1 : 1 < base) (hpos : 0 < n) :
    vdcSum base n = ((n % base : ℕ) : ℚ) / base + vdcSum base (n / base) / base := by
  rw [vdcSum, dif_pos ⟨hb1, hpos⟩]

theorem corputLoop_eq {base : ℕ} (hb : 2 ≤ base) :
    ∀ (fuel n : ℕ) (q d : ℚ), n ≤ fuel → d ≠ 0 →
      corputLoop base fuel n q d = q + vdcSum base n / d := by
  intro fuel
  induction fuel with
  | zero =>
    intro n q d hn _
    have h0 : n = 0 := Nat.le_zero.mp hn
    subst h0
    rw [corputLoop, vdcSum]
    simp
  | succ fuel ih =>
    intro n q d hn hd
    by_cases h0 : n = 0
    · subst h0
      rw [corputLoop, if_pos rfl, vdcSum]
      simp
    · have hb1 : 1 < base := hb
      have hpos : 0 < n := Nat.pos_of_ne_zero h0
      have hlt : n / base < n := Nat.div_lt_self hpos hb1
      have hbQ : (base : ℚ) ≠ 0 := Nat.cast_ne_zero.mpr (by omega)
      have hdb : d * (base : ℚ) ≠ 0 := mul_ne_zero hd hbQ
      rw [corputLoop, if_neg h0, ih (n / base) _ _ (by omega) hdb]
      conv_rhs => rw [vdcSum_pos_eq hb1 hpos]
      field_simp
      ring

theorem corput_eq_vdcSum {n base : ℕ} (hb : 2 ≤ base) :
    corput n base = vdcSum base n - 1/2 := by
  have h := corputLoop_eq hb n n 0 1 le_rfl one_ne_zero
  rw [corput, h]
  ring

theorem vdcSum_bounds {base : ℕ} (hb : 2 ≤ base) (n : ℕ) :
    0 ≤ vdcSum base n ∧ vdcSum base n < 1 := by
  induction n using Nat.strong_induction_on with
  | _ n ih =>
    by_cases h : 0 < n
    · have hb1 : 1 < base := hb
      rw [vdcSum_pos_eq hb1 h]
      have hlt : n / base < n := Nat.div_lt_self h hb1
      obtain ⟨ih0, ih1⟩ := ih (n / base) hlt
      have hbQ : (0 : ℚ) < base := by exact_mod_cast Nat.lt_of_lt_of_le Nat.zero_lt_two hb
      have hrem1 : ((n % base : ℕ) : ℚ) + 1 ≤ (base : ℚ) := by
        exact_mod_cast Nat.mod_lt n (by omega)
      constructor
      · have h1 : (0 : ℚ) ≤ ((n % base : ℕ) : ℚ) / base := by positivity
        have h2 : (0 : ℚ) ≤ vdcSum base (n / base) / base := by positivity
        linarith
      · rw [div_add_div_same, div_lt_one hbQ]
        linarith
    · have h0 : n = 0 := by omega
      subst h0
      rw [vdcSum]
      norm_num

theorem enumFrom_digit_sum {base : ℕ} (hb : 2 ≤ base) :
    ∀ (ds : List ℕ) (i : ℕ),
      ((List.enumFrom i ds).map (fun p => (p.2 : ℚ) / (base : ℚ) ^ (p.1 + 1))).sum
        = (1 / (base : ℚ) ^ i) *
          ((List.enumFrom 0 ds).map (fun p => (p.2 : ℚ) / (base : ℚ) ^ (p.1 + 1))).sum := by
  intro ds
  induction ds with
  | nil => intro i; simp
  | cons d ds ih =>
    intro i
    have hbQ : (base : ℚ) ≠ 0 := Nat.cast_ne_zero.mpr (by omega)
    simp only [List.enumFrom, List.map_cons, List.sum_cons, ih (i + 1), ih 1]
    generalize (List.map (fun p => ((p.2 : ℚ)) / (base : ℚ) ^ (p.1 + 1)) (List.enumFrom 0 ds)).sum = S
    rw [pow_succ]
    field_simp

theorem vdcSum_eq_vanDerCorput {base : ℕ} (hb : 2 ≤ base) (n : ℕ) :
    vdcSum base n = vanDerCorputValue n base := by
  induction n using Nat.strong_induction_on with
  | _ n ih =>
    by_cases h : 0 < n
    · have hb1 : 1 < base := hb
      have hlt : n / base < n := Nat.div_lt_self h hb1
      have hbQ : (base : ℚ) ≠ 0 := Nat.cast_ne_zero.mpr (by omega)
      rw [vdcSum_pos_eq hb1 h, ih (n / base) hlt]
      rw [vanDerCorputValue, vanDerCorputValue, Nat.digits_def' hb1 h]
      simp only [List.enum, List.enumFrom, List.map_cons, List.sum_cons,
        enumFrom_digit_sum hb (Nat.digits base (n / base)) 1]
      generalize (List.map (fun p => ((p.2 : ℚ)) / (base : ℚ) ^ (p.1 + 1))
        (List.enumFrom 0 (Nat.digits base (n / base)))).sum = S
      field_simp
    · have h0 : n = 0 := by omega
      subst h0
      rw [vdcSum, vanDerCorputValue]
      simp

/-- C1: for every `n ≥ 0` and base `b ≥ 2`, `corput n b + 1/2` equals the
Van der Corput digit-reversal value `Σ dₖ / b^(k+1)` over the base-`b`
digits of `n`; i.e. `corput` computes the reversed-digit fraction and then
subtracts `0.5`. -/
theorem corput_digit_reversal (n base : ℕ) (hb : 2 ≤ base) :
    corput n base + 1/2 = vanDerCorputValue n base := by
  rw [corput_eq_vdcSum hb, vdcSum_eq_vanDerCorput hb]
  ring

theorem corput_digit_reversal_witness :
    corput 6 2 + 1/2 = vanDerCorputValue 6 2 :=
  corput_digit_reversal 6 2 (by norm_num)

/-- C2: for every `n ≥ 0` and base `b ≥ 2`, `corput n b` lies in the
half-open interval `[-1/2, 1/2)`. -/
theorem corput_range (n base : ℕ) (hb : 2 ≤ base) :
    -(1/2) ≤ corput n base ∧ corput n base < 1/2 := by
  obtain ⟨h0, h1⟩ := vdcSum_bounds hb n
  rw [corput_eq_vdcSum hb]
  constructor <;> linarith

theorem corput_range_witness :
    -(1/2) ≤ corput 5 3 ∧ corput 5 3 < 1/2 :=
  corput_range 5 3 (by norm_num)

/-- C3: for every base `b ≥ 2`, `corput 0 b` is exactly `-1/2` (the loop
body never runs, so `q` stays `0`). -/
theorem corput_zero (base : ℕ) (hb : 2 ≤ base) : corput 0 base = -(1/2) := by
  rw [corput, corputLoop]
  norm_num

theorem corput_zero_witness : corput 0 2 = -(1/2) :=
  corput_zero 2 (by norm_num)

theorem corputLoop_n_zero (base : ℕ) :
    ∀ (fuel : ℕ) (q d : ℚ), corputLoop base fuel 0 q d = q := by
  intro fuel q d
  cases fuel <;> simp [corputLoop]

/-- C10: the `while n:` loop of `corput` terminates on every `n ≥ 0` when
`base ≥ 2`: the loop variable strictly decreases under `n // base`, so at
most `n` iterations run, and giving the fuel-indexed loop any fuel `≥ n`
yields the same value as fuel `n` — the loop has already exited.  For
`base = 1` the argument fails: `n // 1 = n`, so from any positive `n` the
loop variable never changes and the loop never reaches `0`. -/
theorem corput_terminates :
    (∀ (base n fuel : ℕ) (q d : ℚ), 2 ≤ base → n ≤ fuel →
        corputLoop base fuel n q d = corputLoop base n n q d)
    ∧ (∀ n : ℕ, 0 < n → ∀ k : ℕ, (fun m => m / 1)^[k] n = n) := by
  constructor
  · intro base n
    induction n using Nat.strong_induction_on with
    | _ n ih =>
      intro fuel q d hb hfuel
      by_cases h0 : n = 0
      · subst h0
        rw [corputLoop_n_zero, corputLoop_n_zero]
      · obtain ⟨m, rfl⟩ : ∃ m, n = m + 1 := ⟨n - 1, by omega⟩
        obtain ⟨fuel', rfl⟩ : ∃ f, fuel = f + 1 := ⟨fuel - 1, by omega⟩
        have hlt : (m + 1) / base < m + 1 := Nat.div_lt_self (by omega) hb
        rw [corputLoop, corputLoop, if_neg h0, if_neg h0]
        exact (ih _ hlt fuel' _ _ hb (by omega)).trans (ih _ hlt m _ _ hb (by omega)).symm
  · intro n _ k
    induction k with
    | zero => rfl
    | succ k ihk => rw [Function.iterate_succ_apply', ihk]; exact Nat.div_one n

theorem corput_terminates_witness :
    corputLoop 2 5 3 0 1 = corputLoop 2 3 3 0 1 ∧ (fun m => m / 1)^[4] 7 = 7 :=
  ⟨corput_terminates.1 2 3 5 0 1 (by norm_num) (by norm_num),
   corput_terminates.2 7 (by norm_num) 4⟩

/-- C4: the shading rule of the pixel loop maps every `HitResult` to a
fixed pixel determined only by its hit flag — opaque black `(0,0,0,1)` on a
miss and opaque pure red `(1,0,0,1)` on a hit. -/
theorem shade_by_hit_flag (h : HitResult) :
    shadePixel h = if h.has_hit then (⟨1, 0, 0, 1⟩ : Pixel) else ⟨0, 0, 0, 1⟩ := by
  cases hh : h.has_hit <;>
    simp [shadePixel, traceColor, colorToPixel, hh]

/-- C9: two-run noninterference of the shader — any two `HitResult`s that
agree on the hit flag but differ arbitrarily in hit location, normal or
object id are traced to identical colors, so the core's output depends on
the scene query's answer only through its boolean hit flag. -/
theorem shader_noninterference (h₁ h₂ : HitResult) (hagree : h₁.has_hit = h₂.has_hit) :
    traceColor h₁ = traceColor h₂ ∧ shadePixel h₁ = shadePixel h₂ := by
  constructor
  · rw [traceColor, traceColor, hagree]
  · rw [shadePixel, shadePixel, traceColor, traceColor, hagree]

theorem shader_noninterference_witness :
    traceColor ⟨true, ⟨0, 0, 0⟩, ⟨0, 0, 1⟩, 0⟩ = traceColor ⟨true, ⟨5, 6, 7⟩, ⟨1, 0, 0⟩, 42⟩ ∧
      shadePixel ⟨true, ⟨0, 0, 0⟩, ⟨0, 0, 1⟩, 0⟩ = shadePixel ⟨true, ⟨5, 6, 7⟩, ⟨1, 0, 0⟩, 42⟩ :=
  shader_noninterference ⟨true, ⟨0, 0, 0⟩, ⟨0, 0, 1⟩, 0⟩ ⟨true, ⟨5, 6, 7⟩, ⟨1, 0, 0⟩, 42⟩ rfl

theorem normSq_rotX (a : ℝ) (v : Vec3) : (rotX a v).normSq = v.normSq := by
  simp only [rotX, Vec3.normSq]
  have h := Real.sin_sq_add_cos_sq a
  nlinarith [h]

theorem normSq_rotY (a : ℝ) (v : Vec3) : (rotY a v).normSq = v.normSq := by
  simp only [rotY, Vec3.normSq]
  have h := Real.sin_sq_add_cos_sq a
  nlinarith [h]

theorem normSq_rotZ (a : ℝ) (v : Vec3) : (rotZ a v).normSq = v.normSq := by
  simp only [rotZ, Vec3.normSq]
  have h := Real.sin_sq_add_cos_sq a
  nlinarith [h]

theorem normSq_rotateEuler (e : Euler) (v : Vec3) :
    (rotateEuler e v).normSq = v.normSq := by
  rw [rotateEuler, normSq_rotZ, normSq_rotY, normSq_rotX]

theorem normSq_nonneg (v : Vec3) : 0 ≤ v.normSq := by
  rw [Vec3.normSq]; positivity

theorem norm_pos_of_normSq_pos {v : Vec3} (h : 0 < v.normSq) : 0 < v.norm := by
  rw [Vec3.norm]
  exact Real.sqrt_pos.mpr h

theorem normalized_norm_one {v : Vec3} (h : 0 < v.normSq) : v.normalized.norm = 1 := by
  have hn : 0 < v.norm := norm_pos_of_normSq_pos h
  have hne : v.norm ≠ 0 := ne_of_gt hn
  have hsq : v.norm ^ 2 = v.normSq := Real.sq_sqrt (le_of_lt h)
  rw [Vec3.normalized, if_neg hne]
  have hnormSq : (Vec3.mk (v.x / v.norm) (v.y / v.norm) (v.z / v.norm)).normSq = 1 := by
    rw [Vec3.normSq]
    have expand : (v.x / v.norm) ^ 2 + (v.y / v.norm) ^ 2 + (v.z / v.norm) ^ 2
        = (v.x ^ 2 + v.y ^ 2 + v.z ^ 2) / v.norm ^ 2 := by
      field_simp
    rw [expand, hsq]
    rw [Vec3.normSq] at h ⊢
    field_simp
  rw [Vec3.norm, hnormSq, Real.sqrt_one]

/-- C5: for every camera orientation, focal length `f > 0` and jittered
screen coordinates, the ray direction built by the loop body — rotate
`(sx, sy, -f)` by the camera orientation, then normalize — has unit
magnitude, so every direction handed to the scene query is a unit vector. -/
theorem ray_direction_unit (e : Euler) (f sx sy : ℝ) (hf : 0 < f) :
    (rayDirFor e f sx sy).norm = 1 := by
  rw [rayDirFor]
  apply normalized_norm_one
  rw [normSq_rotateEuler, Vec3.normSq]
  simp only []
  nlinarith [sq_nonneg sx, sq_nonneg sy, pow_pos hf 2]

theorem ray_direction_unit_witness :
    (rayDirFor ⟨0, 0, 0⟩ 1 0 0).norm = 1 :=
  ray_direction_unit ⟨0, 0, 0⟩ 1 0 0 (by norm_num)

theorem foldl_invariant {α β : Type} (P : β → Prop) (f : β → α → β)
    (hf : ∀ b a, P b → P (f b a)) : ∀ (l : List α) (b : β), P b → P (l.foldl f b) := by
  intro l
  induction l with
  | nil => intro b hb; exact hb
  | cons a l ih => intro b hb; exact ih _ (hf b a hb)

theorem foldl_set_length (g : ℕ → Pixel) (base : ℕ) :
    ∀ (n : ℕ) (st : ℕ × List Pixel),
      (((List.range n).foldl (fun st x => (st.1 + 1, st.2.set (base + x) (g x))) st).2).length
        = st.2.length := by
  intro n
  induction n with
  | zero => intro st; rfl
  | succ n ih =>
    intro st
    rw [List.range_succ, List.foldl_append, List.foldl_cons, List.foldl_nil]
    rw [List.length_set, ih st]

theorem foldl_set_get (g : ℕ → Pixel) (base : ℕ) :
    ∀ (n : ℕ) (st : ℕ × List Pixel) (j : ℕ),
      (((List.range n).foldl (fun st x => (st.1 + 1, st.2.set (base + x) (g x))) st).2)[j]?
        = if base ≤ j ∧ j < base + n ∧ j < st.2.length then some (g (j - base))
          else st.2[j]? := by
  intro n
  induction n with
  | zero =>
    intro st j
    rw [if_neg (by omega)]
    rfl
  | succ n ih =>
    intro st j
    rw [List.range_succ, List.foldl_append, List.foldl_cons, List.foldl_nil]
    show ((((List.range n).foldl _ st).2).set (base + n) (g n))[j]? = _
    rw [List.getElem?_set, foldl_set_length g base n st, ih st j]
    by_cases hbn : base + n = j
    · rw [if_pos hbn]
      subst hbn
      by_cases hlen : base + n < st.2.length
      · rw [if_pos hlen, if_pos ⟨by omega, by omega, hlen⟩]
        have he : base + n - base = n := by omega
        rw [he]
      · rw [if_neg hlen, if_neg (by omega), List.getElem?_eq_none (by omega)]
    · rw [if_neg hbn]
      by_cases hc : base ≤ j ∧ j < base + n ∧ j < st.2.length
      · rw [if_pos hc, if_pos (by omega)]
      · rw [if_neg hc, if_neg (by omega)]

theorem renderRow_length (scene : Scene) (cam : CameraState) (width height : ℤ)
    (cx cy : ℝ) (st : ℕ × List Pixel) (y : ℕ) :
    (renderRow scene cam width height cx cy st y).2.length = st.2.length := by
  rw [renderRow]
  exact foldl_set_length (fun x => samplePixel scene cam width height cx cy x y)
    (y * width.toNat) width.toNat st

theorem renderRow_get (scene : Scene) (cam : CameraState) (width height : ℤ)
    (cx cy : ℝ) (st : ℕ × List Pixel) (y j : ℕ) :
    (renderRow scene cam width height cx cy st y).2[j]?
      = if y * width.toNat ≤ j ∧ j < y * width.toNat + width.toNat ∧ j < st.2.length
        then some (samplePixel scene cam width height cx cy (j - y * width.toNat) y)
        else st.2[j]? := by
  rw [renderRow]
  exact foldl_set_get (fun x => samplePixel scene cam width height cx cy x y)
    (y * width.toNat) width.toNat st j

theorem renderPass_aux_length (scene : Scene) (cam : CameraState) (width height : ℤ)
    (cx cy : ℝ) :
    ∀ (m : ℕ) (st : ℕ × List Pixel),
      (((List.range m).foldl (fun st y => renderRow scene cam width height cx cy st y) st).2).length
        = st.2.length := by
  intro m
  induction m with
  | zero => intro st; rfl
  | succ m ih =>
    intro st
    rw [List.range_succ, List.foldl_append, List.foldl_cons, List.foldl_nil]
    rw [renderRow_length, ih st]

theorem renderPass_aux_get (scene : Scene) (cam : CameraState) (width height : ℤ)
    (cx cy : ℝ) :
    ∀ (m : ℕ) (st : ℕ × List Pixel) (j : ℕ),
      (((List.range m).foldl (fun st y => renderRow scene cam width height cx cy st y) st).2)[j]?
        = if j < m * width.toNat ∧ j < st.2.length
          then some (samplePixel scene cam width height cx cy
            (j % width.toNat) (j / width.toNat))
          else st.2[j]? := by
  intro m
  induction m with
  | zero =>
    intro st j
    rw [if_neg (by omega)]
    rfl
  | succ m ih =>
    intro st j
    rw [List.range_succ, List.foldl_append, List.foldl_cons, List.foldl_nil]
    rw [renderRow_get, renderPass_aux_length scene cam width height cx cy m st, ih st j]
    rw [Nat.succ_mul]
    by_cases hc1 : m * width.toNat ≤ j ∧ j < m * width.toNat + width.toNat ∧ j < st.2.length
    · rw [if_pos hc1, if_pos (by omega)]
      obtain ⟨r, hrlt, rfl⟩ : ∃ r, r < width.toNat ∧ j = width.toNat * m + r :=
        ⟨j - m * width.toNat, by omega, by rw [Nat.mul_comm]; omega⟩
      have hwpos : 0 < width.toNat := by omega
      have hdiv : (width.toNat * m + r) / width.toNat = m := by
        rw [Nat.mul_add_div hwpos, Nat.div_eq_of_lt hrlt]
        omega
      have hmod : (width.toNat * m + r) % width.toNat = r := by
        rw [Nat.mul_add_mod, Nat.mod_eq_of_lt hrlt]
      have hsub : width.toNat * m + r - m * width.toNat = r := by
        rw [Nat.mul_comm]; omega
      rw [hdiv, hmod, hsub]
    · rw [if_neg hc1]
      by_cases hc2 : j < m * width.toNat ∧ j < st.2.length
      · rw [if_pos hc2, if_pos (by omega)]
      · rw [if_neg hc2, if_neg (by omega)]

theorem renderPass_length (scene : Scene) (cam : CameraState) (width height : ℤ)
    (cx cy : ℝ) (st : ℕ × List Pixel) :
    (renderPass scene cam width height cx cy st).2.length = st.2.length := by
  rw [renderPass]
  exact renderPass_aux_length scene cam width height cx cy height.toNat st

theorem renderPass_get (scene : Scene) (cam : CameraState) (width height : ℤ)
    (cx cy : ℝ) (st : ℕ × List Pixel) (j : ℕ) :
    (renderPass scene cam width height cx cy st).2[j]?
      = if j < height.toNat * width.toNat ∧ j < st.2.length
        then some (samplePixel scene cam width height cx cy (j % width.toNat) (j / width.toNat))
        else st.2[j]? := by
  rw [renderPass]
  exact renderPass_aux_get scene cam width height cx cy height.toNat st j

theorem render_ok_eq (scene : Scene) (cam : CameraState) (width height : ℤ)
    (sample_count : ℕ) (h : ¬(width = 0 ∨ height = 0)) :
    render scene cam width height sample_count =
      (((List.range sample_count).foldl
          (fun st s =>
            renderPass scene cam width height (corputX width s) (corputY width height s) st)
          (0, List.replicate (width * height).toNat ⟨0, 0, 0, 1⟩)).1,
       Except.ok ((List.range sample_count).foldl
          (fun st s =>
            renderPass scene cam width height (corputX width s) (corputY width height s) st)
          (0, List.replicate (width * height).toNat ⟨0, 0, 0, 1⟩)).2) := by
  rw [render, if_neg h]

theorem samplePixel_alpha (scene : Scene) (cam : CameraState) (width height : ℤ)
    (cx cy : ℝ) (x y : ℕ) : (samplePixel scene cam width height cx cy x y).a = 1 := rfl

theorem renderRow_alpha (scene : Scene) (cam : CameraState) (width height : ℤ)
    (cx cy : ℝ) (st : ℕ × List Pixel) (y : ℕ) (hst : ∀ p ∈ st.2, p.a = 1) :
    ∀ p ∈ (renderRow scene cam width height cx cy st y).2, p.a = 1 := by
  rw [renderRow]
  refine foldl_invariant (fun st : ℕ × List Pixel => ∀ p ∈ st.2, p.a = 1) _ ?_ (List.range width.toNat) st hst
  intro b x hb p hp
  rcases List.mem_or_eq_of_mem_set hp with h1 | h2
  · exact hb p h1
  · rw [h2]; exact samplePixel_alpha scene cam width height cx cy x y

theorem renderPass_alpha (scene : Scene) (cam : CameraState) (width height : ℤ)
    (cx cy : ℝ) (st : ℕ × List Pixel) (hst : ∀ p ∈ st.2, p.a = 1) :
    ∀ p ∈ (renderPass scene cam width height cx cy st).2, p.a = 1 := by
  rw [renderPass]
  exact foldl_invariant (fun st : ℕ × List Pixel => ∀ p ∈ st.2, p.a = 1) _
    (fun b y hb => renderRow_alpha scene cam width height cx cy b y hb)
    (List.range height.toNat) st hst

/-- C6: for every valid resolution (`width > 0`, `height > 0`) and
`sample_count ≥ 1`, `render` succeeds and the frame buffer it hands to the
result sink has length exactly `width * height` and alpha component exactly
`1` at every pixel. -/
theorem render_buffer_invariants (scene : Scene) (cam : CameraState) (width height : ℤ)
    (sample_count : ℕ) (hw : 0 < width) (hh : 0 < height) (hsc : 1 ≤ sample_count) :
    ∃ buf, (render scene cam width height sample_count).2 = Except.ok buf ∧
      (buf.length : ℤ) = width * height ∧ ∀ p ∈ buf, p.a = 1 := by
  rw [render_ok_eq scene cam width height sample_count (by omega)]
  refine ⟨_, rfl, ?_, ?_⟩
  · have hlen :
        (((List.range sample_count).foldl
          (fun st s =>
            renderPass scene cam width height (corputX width s) (corputY width height s) st)
          (0, List.replicate (width * height).toNat ⟨0, 0, 0, 1⟩)).2).length
        = (width * height).toNat := by
      refine foldl_invariant (fun st : ℕ × List Pixel => st.2.length = (width * height).toNat) _ ?_
        (List.range sample_count) _ (List.length_replicate _ _)
      intro b s hb
      rw [renderPass_length, hb]
    rw [hlen]
    rw [Int.toNat_of_nonneg (by positivity)]
  · refine foldl_invariant (fun st : ℕ × List Pixel => ∀ p ∈ st.2, p.a = 1) _ ?_ (List.range sample_count) _ ?_
    · intro b s hb
      exact renderPass_alpha scene cam width height (corputX width s) (corputY width height s) b hb
    · intro p hp
      rw [List.eq_of_mem_replicate hp]

theorem render_buffer_invariants_witness :
    ∃ buf, (render emptyScene camZero 1 1 1).2 = Except.ok buf ∧
      (buf.length : ℤ) = 1 * 1 ∧ ∀ p ∈ buf, p.a = 1 :=
  render_buffer_invariants emptyScene camZero 1 1 1 (by norm_num) (by norm_num) (by norm_num)

theorem renderRow_zero_width (scene : Scene) (cam : CameraState) (width height : ℤ)
    (cx cy : ℝ) (st : ℕ × List Pixel) (y : ℕ) (h : width.toNat = 0) :
    renderRow scene cam width height cx cy st y = st := by
  rw [renderRow, h, List.range_zero, List.foldl_nil]

theorem renderPass_zero_width (scene : Scene) (cam : CameraState) (width height : ℤ)
    (cx cy : ℝ) (st : ℕ × List Pixel) (h : width.toNat = 0) :
    renderPass scene cam width height cx cy st = st := by
  rw [renderPass]
  refine foldl_invariant (fun s : ℕ × List Pixel => s = st) _ ?_ (List.range height.toNat) st rfl
  intro b y hb
  rw [renderRow_zero_width scene cam width height cx cy b y h]
  exact hb

/-- C8 counterexample: at `width = -1`, `height = 4` (an input with
`width ≤ 0`), `render` does not fail at all — the loop ranges are empty, so
it succeeds with an empty buffer and zero scene queries — contradicting the
claim that every such input fails with an `InvalidResolution` error. -/
theorem render_negative_width_no_error :
    render emptyScene camZero (-1) 4 1 = (0, Except.ok []) := by
  rw [render_ok_eq emptyScene camZero (-1) 4 1 (by norm_num)]
  have h1 : List.range 1 = [0] := rfl
  rw [h1, List.foldl_cons, List.foldl_nil,
    renderPass_zero_width emptyScene camZero (-1) 4 _ _ _ (by decide)]
  rfl

theorem renderPass_zero_height (scene : Scene) (cam : CameraState) (width height : ℤ)
    (cx cy : ℝ) (st : ℕ × List Pixel) (h : height.toNat = 0) :
    renderPass scene cam width height cx cy st = st := by
  rw [renderPass, h, List.range_zero, List.foldl_nil]

/-- C8 amended: when `width = 0` or `height = 0`, `render` fails before the
pixel loop with the division-by-zero error raised while computing
`aspect_ratio = height / width` or `dy = aspect_ratio / height` (not with an
`InvalidResolution` error, which the code never raises), and performs zero
scene-query calls.  When `width < 0` or `height < 0` and neither dimension
is zero, no error is raised at all: one loop range is empty, so `render`
performs zero scene-query calls and succeeds, handing the result sink the
untouched initial fill `[color] * pixel_count` of `max 0 (width * height)`
pixels — empty when the product is negative (e.g. `width = -1`,
`height = 4`), and a non-empty all-black buffer when both dimensions are
negative (e.g. `width = -1`, `height = -4` yields 4 pixels). -/
theorem render_invalid_resolution_behavior (scene : Scene) (cam : CameraState)
    (width height : ℤ) (sample_count : ℕ) :
    (width = 0 ∨ height = 0 →
      render scene cam width height sample_count = (0, Except.error RenderError.zeroDivision))
    ∧ (width < 0 ∨ height < 0 → ¬(width = 0 ∨ height = 0) →
      render scene cam width height sample_count
        = (0, Except.ok (List.replicate (width * height).toNat ⟨0, 0, 0, 1⟩))) := by
  constructor
  · intro h
    rw [render, if_pos h]
  · intro hneg hz
    rw [render_ok_eq scene cam width height sample_count hz]
    have hpass : ∀ (cx cy : ℝ) (st : ℕ × List Pixel),
        renderPass scene cam width height cx cy st = st := by
      rcases hneg with hw | hh
      · intro cx cy st
        exact renderPass_zero_width scene cam width height cx cy st
          (Int.toNat_eq_zero.mpr (by omega))
      · intro cx cy st
        exact renderPass_zero_height scene cam width height cx cy st
          (Int.toNat_eq_zero.mpr (by omega))
    have hfold : (List.range sample_count).foldl
        (fun st s =>
          renderPass scene cam width height (corputX width s) (corputY width height s) st)
        (0, List.replicate (width * height).toNat ⟨0, 0, 0, 1⟩)
        = (0, List.replicate (width * height).toNat ⟨0, 0, 0, 1⟩) := by
      refine foldl_invariant
        (fun s : ℕ × List Pixel =>
          s = (0, List.replicate (width * height).toNat ⟨0, 0, 0, 1⟩)) _ ?_
        (List.range sample_count) _ rfl
      intro b s hb
      rw [hpass, hb]
    rw [hfold]

theorem render_invalid_resolution_behavior_witness :
    render emptyScene camZero 0 4 1 = (0, Except.error RenderError.zeroDivision)
    ∧ render emptyScene camZero (-1) (-4) 1
        = (0, Except.ok (List.replicate ((-1 * -4 : ℤ)).toNat ⟨0, 0, 0, 1⟩)) :=
  ⟨(render_invalid_resolution_behavior emptyScene camZero 0 4 1).1 (Or.inl rfl),
   (render_invalid_resolution_behavior emptyScene camZero (-1) (-4) 1).2
     (Or.inl (by norm_num)) (by norm_num)⟩

/-- C7: at resolution 4×4 with `sample_count = 1` and a scene query that
reports a hit exactly for the ray of pixel `(x, y) = (2, 2)`, `render`
returns a 16-pixel buffer whose only red pixel `(1,0,0,1)` sits at flat
index `10 = 2*4 + 2` — every other pixel is `(0,0,0,1)` — so the pixel for
coordinate `(x, y)` is stored at row-major index `y*width + x`. -/
theorem render_end_to_end (scene : Scene) (cam : CameraState)
    (hstub : ∀ x y : ℕ, x < 4 → y < 4 →
      (ray_cast scene cam.location
          (sampleRay cam 4 4 (corputX 4 0) (corputY 4 4 0) x y)).has_hit
        = decide (x = 2 ∧ y = 2)) :
    (render scene cam 4 4 1).2
      = Except.ok ((List.range 16).map
          fun j => if j = 10 then (⟨1, 0, 0, 1⟩ : Pixel) else ⟨0, 0, 0, 1⟩) := by
  rw [render_ok_eq scene cam 4 4 1 (by norm_num)]
  have h1 : List.range 1 = [0] := rfl
  rw [h1, List.foldl_cons, List.foldl_nil]
  dsimp only
  refine congrArg Except.ok ?_
  refine List.ext_getElem? fun j => ?_
  rw [renderPass_get]
  dsimp only
  rw [List.length_replicate, List.getElem?_map]
  have ht : ((4 : ℤ)).toNat = 4 := rfl
  have ht16 : ((4 * 4 : ℤ)).toNat = 16 := rfl
  rw [ht, ht16]
  by_cases hj : j < 16
  · rw [if_pos ⟨by omega, hj⟩, List.getElem?_range hj, Option.map_some']
    refine congrArg some ?_
    rw [samplePixel, RT_trace_ray, traceColor]
    rw [hstub (j % 4) (j / 4) (by omega) (by omega)]
    by_cases h10 : j = 10
    · subst h10
      norm_num [colorToPixel]
    · have hnot : ¬(j % 4 = 2 ∧ j / 4 = 2) := by omega
      simp [hnot, h10, colorToPixel]
  · rw [if_neg (by omega), List.getElem?_eq_none (by rw [List.length_replicate]; omega),
      List.getElem?_eq_none (by rw [List.length_range]; omega)]
    rfl

theorem rotateEuler_zero (v : Vec3) : rotateEuler ⟨0, 0, 0⟩ v = v := by
  cases v
  simp [rotateEuler, rotX, rotY, rotZ, Real.cos_zero, Real.sin_zero]

theorem normSq_pos_of_z_ne_zero {v : Vec3} (hz : v.z ≠ 0) : 0 < v.normSq := by
  rw [Vec3.normSq]
  have h : 0 < v.z ^ 2 := by positivity
  nlinarith [sq_nonneg v.x, sq_nonneg v.y]

theorem normalized_inj {v w : Vec3} (hz : v.z = w.z) (hz0 : v.z ≠ 0)
    (h : v.normalized = w.normalized) : v = w := by
  have hv : 0 < v.norm := norm_pos_of_normSq_pos (normSq_pos_of_z_ne_zero hz0)
  have hw : 0 < w.norm := by
    refine norm_pos_of_normSq_pos (normSq_pos_of_z_ne_zero ?_)
    rw [← hz]; exact hz0
  have hvne : v.norm ≠ 0 := ne_of_gt hv
  have hwne : w.norm ≠ 0 := ne_of_gt hw
  rw [Vec3.normalized, Vec3.normalized, if_neg hvne, if_neg hwne] at h
  simp only [Vec3.mk.injEq] at h
  obtain ⟨h1, h2, h3⟩ := h
  rw [← hz] at h3
  have hnorm : v.norm = w.norm := by
    field_simp at h3
    rcases h3 with h3 | h3
    · exact h3.symm
    · exact absurd h3 hz0
  rw [← hnorm] at h1 h2
  have hx : v.x = w.x := by
    field_simp at h1
    exact h1
  have hy : v.y = w.y := by
    field_simp at h2
    exact h2
  cases v; cases w
  simp only at hx hy hz
  rw [hx, hy, hz]

theorem screenX_four_inj {x x' : ℕ} (h : screenX 4 x = screenX 4 x') : x = x' := by
  rw [screenX, screenX] at h
  have h4 : ((4 : ℤ) : ℝ) = 4 := by norm_num
  rw [h4] at h
  field_simp at h
  exact_mod_cast h

theorem screenY_four_inj {y y' : ℕ} (h : screenY 4 4 y = screenY 4 4 y') : y = y' := by
  rw [screenY, screenY] at h
  have h4 : ((4 : ℤ) : ℝ) = 4 := by norm_num
  rw [h4] at h
  field_simp at h
  exact_mod_cast h

theorem sampleRay_camZero (width height : ℤ) (cx cy : ℝ) (x y : ℕ) :
    sampleRay camZero width height cx cy x y
      = Vec3.normalized ⟨screenX width x + cx, screenY width height y + cy, -1⟩ := by
  rw [sampleRay, rayDirFor]
  have h1 : camZero.rotation_euler = ⟨0, 0, 0⟩ := rfl
  have h2 : camZero.focal_length = 1 := rfl
  rw [h1, h2, rotateEuler_zero]

theorem sampleRay_camZero_inj (cx cy : ℝ) {x y u w : ℕ}
    (h : sampleRay camZero 4 4 cx cy x y = sampleRay camZero 4 4 cx cy u w) :
    x = u ∧ y = w := by
  rw [sampleRay_camZero, sampleRay_camZero] at h
  have hz0 : (Vec3.mk (screenX 4 x + cx) (screenY 4 4 y + cy) (-1)).z ≠ 0 := by
    show (-1 : ℝ) ≠ 0
    norm_num
  have heq := @normalized_inj ⟨screenX 4 x + cx, screenY 4 4 y + cy, -1⟩
    ⟨screenX 4 u + cx, screenY 4 4 w + cy, -1⟩ rfl hz0 h
  simp only [Vec3.mk.injEq] at heq
  obtain ⟨hxe, hye, _⟩ := heq
  exact ⟨screenX_four_inj (add_right_cancel hxe), screenY_four_inj (add_right_cancel hye)⟩

theorem render_end_to_end_witness :
    (render (stubScene (sampleRay camZero 4 4 (corputX 4 0) (corputY 4 4 0) 2 2))
        camZero 4 4 1).2
      = Except.ok ((List.range 16).map
          fun j => if j = 10 then (⟨1, 0, 0, 1⟩ : Pixel) else ⟨0, 0, 0, 1⟩) := by
  refine render_end_to_end _ camZero ?_
  intro x y hx hy
  simp only [ray_cast, stubScene]
  by_cases hd : sampleRay camZero 4 4 (corputX 4 0) (corputY 4 4 0) x y
      = sampleRay camZero 4 4 (corputX 4 0) (corputY 4 4 0) 2 2
  · rw [if_pos hd]
    obtain ⟨hx2, hy2⟩ := sampleRay_camZero_inj _ _ hd
    subst hx2
    subst hy2
    simp
  · rw [if_neg hd]
    have hne : ¬(x = 2 ∧ y = 2) := by
      rintro ⟨rfl, rfl⟩
      exact hd rfl
    simp [hne]
